import Mathlib

set_option maxHeartbeats 1000000

/- Verification development for the node-schema entity-modeling library.
   JavaScript runtime values are embedded as an inductive type; objects are
   association lists whose pair order models the key insertion order of a
   JavaScript object. Values are modelled to nesting depth two (scalars,
   arrays of scalars, objects of scalars), which covers every value the
   verified operations inspect; the deep value equality used by the source
   (isEqual) is structural equality on this universe. -/

inductive JSPrim where
  | pnull
  | pundef
  | pbool (b : Bool)
  | pnum (n : Int)
  | pstr (s : String)
deriving DecidableEq, Repr

inductive JSVal where
  | vnull
  | vundef
  | vbool (b : Bool)
  | vnum (n : Int)
  | vstr (s : String)
  | varr (xs : List JSPrim)
  | vobj (fields : List (String × JSPrim))
deriving DecidableEq, Repr

/- A field error stored by the error tool: a list of reasons plus an
   optional metadata object (none models null or undefined metadata). -/
structure FieldError where
  reasons : List String
  metadata : Option (List (String × JSVal))
deriving DecidableEq, Repr

/- Association-list access: the value stored at the first occurrence of a
   key, the semantics of reading a JavaScript object property. -/
def alookup {α : Type} : List (String × α) → String → Option α
  | [], _ => none
  | (a, b) :: ps, k => if k = a then some b else alookup ps k

/- The semantics of the JavaScript object spread of old then new: keys of
   old keep their position (values overridden by new where present), keys
   of new not already in old are appended in their own order. -/
def shallowMerge (old new : List (String × JSVal)) : List (String × JSVal) :=
  (old.map fun p => (p.1, ((alookup new p.1).getD p.2)))
    ++ new.filter fun p => (alookup old p.1).isNone

/- The JavaScript string comparison a < b: lexicographic comparison of the
   code units. -/
def charLt (c d : Char) : Bool :=
  c.toNat < d.toNat

def charListLt : List Char → List Char → Bool
  | [], [] => false
  | [], _ :: _ => true
  | _ :: _, [] => false
  | c :: cs, d :: ds =>
    if charLt c d then true
    else if charLt d c then false
    else charListLt cs ds

def strLt (a b : String) : Bool :=
  charListLt a.data b.data

def strLe (a b : String) : Bool :=
  !(strLt b a)

/- src/utils/functions.ts sort: data.sort with the comparator a < b.
   Modelled as insertion sort, which agrees with any comparison sort on
   lists of distinct keys. -/
def sortInsert (x : String) : List String → List String
  | [] => [x]
  | y :: ys => if strLt x y then x :: y :: ys else y :: sortInsert x ys

def sortStrings : List String → List String
  | [] => []
  | x :: xs => sortInsert x (sortStrings xs)

/- Ascending order of a surfaced key list, under the JavaScript string
   comparison. -/
def StrSorted (l : List String) : Prop :=
  l.Pairwise fun a b => strLe a b = true

/- src/utils/functions.ts sortKeys: rebuild the object with its keys in
   sorted order, each key keeping its value. -/
def sortKeysObj (obj : List (String × FieldError)) : List (String × FieldError) :=
  (sortStrings (obj.map Prod.fst)).filterMap fun k =>
    (alookup obj k).map fun v => (k, v)

/- src/schema/utils/error-tool.ts DefaultErrorTool. The private payload is
   an insertion-ordered association list with distinct keys. -/
structure DefaultErrorTool where
  message : String
  payload : List (String × FieldError)
deriving DecidableEq, Repr

def DefaultErrorTool.mk0 (message : String) : DefaultErrorTool :=
  { message := message, payload := [] }

/- The data getter: the message plus the payload with sorted keys. -/
def DefaultErrorTool.data (t : DefaultErrorTool) : String × List (String × FieldError) :=
  (t.message, sortKeysObj t.payload)

/- The fields getter: Object.keys of the raw payload (insertion order). -/
def DefaultErrorTool.fields (t : DefaultErrorTool) : List String :=
  t.payload.map Prod.fst

def DefaultErrorTool.isLoaded (t : DefaultErrorTool) : Bool :=
  t.payload.length > 0

/- The body of the duplicate-key branch of DefaultErrorTool.set: the stored
   entry cur is kept, and only when the new write carries a metadata object
   not deep-equal to the stored one is that object spread over the stored
   metadata (stored metadata of null counts as the empty object). -/
def mergeFieldError (cur value : FieldError) : FieldError :=
  match value.metadata with
  | none => cur
  | some m =>
    if cur.metadata = some m then cur
    else { cur with metadata := some (shallowMerge (cur.metadata.getD []) m) }

/- DefaultErrorTool.set: a first write for a field stores the value
   verbatim; a later write for the same field rewrites that entry through
   mergeFieldError. -/
def DefaultErrorTool.set (t : DefaultErrorTool) (field : String) (value : FieldError) :
    DefaultErrorTool :=
  if alookup t.payload field = none then
    { t with payload := t.payload ++ [(field, value)] }
  else
    { t with
      payload := t.payload.map fun p =>
        if p.1 = field then (p.1, mergeFieldError p.2 value) else p }

/- Repeated writes to the same field, in call order. -/
def DefaultErrorTool.setMany (t : DefaultErrorTool) (field : String) :
    List FieldError → DefaultErrorTool
  | [] => t
  | v :: vs => (t.set field v).setMany field vs


/- Association-list lemmas used to reason about the error tool. -/

theorem alookup_append_of_none {α : Type} (l l' : List (String × α)) (k : String)
    (h : alookup l k = none) : alookup (l ++ l') k = alookup l' k := by
  induction l with
  | nil => simp [alookup]
  | cons p ps ih =>
    cases p with
    | mk a b =>
      by_cases hka : k = a
      · simp [alookup, hka] at h
      · simp only [alookup, List.cons_append, if_neg hka] at h ⊢
        exact ih h

theorem alookup_map_update {α : Type} (l : List (String × α)) (f : String) (g : α → α) :
    alookup (l.map fun p => if p.1 = f then (p.1, g p.2) else p) f
      = (alookup l f).map g := by
  induction l with
  | nil => simp [alookup]
  | cons p ps ih =>
    cases p with
    | mk a b =>
      have hstep : (((a, b) :: ps).map fun p => if p.1 = f then (p.1, g p.2) else p)
          = (if a = f then (a, g b) else (a, b))
            :: (ps.map fun p => if p.1 = f then (p.1, g p.2) else p) := by
        rw [List.map_cons]
      rw [hstep]
      by_cases haf : a = f
      · subst haf
        rw [if_pos rfl]
        simp [alookup]
      · rw [if_neg haf]
        have hfa : f ≠ a := fun hh => haf hh.symm
        simp only [alookup, if_neg hfa]
        exact ih

theorem alookup_isSome_of_mem_keys {α : Type} (l : List (String × α)) (k : String)
    (h : k ∈ l.map Prod.fst) : ∃ v, alookup l k = some v := by
  induction l with
  | nil => simp at h
  | cons p ps ih =>
    cases p with
    | mk a b =>
      simp only [List.map_cons, List.mem_cons] at h
      by_cases hka : k = a
      · exact ⟨b, by simp [alookup, hka]⟩
      · have hmem : k ∈ ps.map Prod.fst := by
          rcases h with h | h
          · exact absurd h hka
          · exact h
        obtain ⟨v, hv⟩ := ih hmem
        exact ⟨v, by simp [alookup, if_neg hka, hv]⟩

theorem alookup_of_mem_nodup {α : Type} (l : List (String × α)) (k : String) (v : α)
    (hmem : (k, v) ∈ l) (hnd : (l.map Prod.fst).Nodup) : alookup l k = some v := by
  induction l with
  | nil => simp at hmem
  | cons p ps ih =>
    cases p with
    | mk a b =>
      simp only [List.map_cons, List.nodup_cons] at hnd
      rcases List.mem_cons.mp hmem with h | h
      · cases h
        simp [alookup]
      · have hka : k ≠ a := by
          intro hh
          subst hh
          exact hnd.1 (List.mem_map.mpr ⟨(k, v), h, rfl⟩)
        simp only [alookup, if_neg hka]
        exact ih h hnd.2

theorem list_map_id_of_mem {α : Type} (f : α → α) :
    ∀ l : List α, (∀ x ∈ l, f x = x) → l.map f = l
  | [], _ => rfl
  | x :: xs, h => by
    rw [List.map_cons, h x (List.mem_cons_self x xs),
      list_map_id_of_mem f xs fun y hy => h y (List.mem_cons_of_mem x hy)]

theorem shallowMerge_self (m : List (String × JSVal)) (hnd : (m.map Prod.fst).Nodup) :
    shallowMerge m m = m := by
  unfold shallowMerge
  have h1 : (m.map fun p => (p.1, ((alookup m p.1).getD p.2))) = m := by
    apply list_map_id_of_mem
    intro p hp
    have hl := alookup_of_mem_nodup m p.1 p.2 hp hnd
    simp [hl]
  have h2 : (m.filter fun p => (alookup m p.1).isNone) = [] := by
    apply List.filter_eq_nil_iff.mpr
    intro p hp
    have hl := alookup_of_mem_nodup m p.1 p.2 hp hnd
    simp [hl]
  rw [h1, h2, List.append_nil]

theorem mergeFieldError_reasons (cur value : FieldError) :
    (mergeFieldError cur value).reasons = cur.reasons := by
  unfold mergeFieldError
  cases value.metadata with
  | none => rfl
  | some m =>
    by_cases h : cur.metadata = some m
    · simp [h]
    · simp [h]

theorem mergeFieldError_of_none (cur value : FieldError) (h : value.metadata = none) :
    mergeFieldError cur value = cur := by
  unfold mergeFieldError
  rw [h]

theorem mergeFieldError_metadata (cur value : FieldError) (m : List (String × JSVal))
    (hv : value.metadata = some m) (hnd : (m.map Prod.fst).Nodup) :
    (mergeFieldError cur value).metadata = some (shallowMerge (cur.metadata.getD []) m) := by
  have hred : mergeFieldError cur value
      = if cur.metadata = some m then cur
        else { cur with metadata := some (shallowMerge (cur.metadata.getD []) m) } := by
    unfold mergeFieldError
    rw [hv]
  rw [hred]
  by_cases h : cur.metadata = some m
  · rw [if_pos h, h]
    simp [shallowMerge_self m hnd]
  · rw [if_neg h]

theorem set_alookup_of_none (t : DefaultErrorTool) (f : String) (v : FieldError)
    (h : alookup t.payload f = none) :
    alookup ((t.set f v).payload) f = some v := by
  unfold DefaultErrorTool.set
  rw [if_pos h]
  simp only
  rw [alookup_append_of_none _ _ _ h]
  simp [alookup]

theorem set_alookup_of_some (t : DefaultErrorTool) (f : String) (v cur : FieldError)
    (h : alookup t.payload f = some cur) :
    alookup ((t.set f v).payload) f = some (mergeFieldError cur v) := by
  unfold DefaultErrorTool.set
  rw [if_neg (by simp [h])]
  simp only
  rw [alookup_map_update t.payload f (fun c => mergeFieldError c v), h]
  rfl

theorem setMany_reasons (f : String) (vs : List FieldError) :
    ∀ (t : DefaultErrorTool) (cur : FieldError), alookup t.payload f = some cur →
      ∃ fin, alookup ((t.setMany f vs).payload) f = some fin
        ∧ fin.reasons = cur.reasons := by
  induction vs with
  | nil => exact fun t cur h => ⟨cur, h, rfl⟩
  | cons v vs ih =>
    intro t cur h
    have hstep := set_alookup_of_some t f v cur h
    obtain ⟨fin, hfin, hreasons⟩ := ih (t.set f v) (mergeFieldError cur v) hstep
    exact ⟨fin, hfin, hreasons.trans (mergeFieldError_reasons cur v)⟩

/-- C3: for every field key, the first write of the error accumulator's set
stores the given value verbatim, and every later write for the same field
leaves the first reasons list unchanged (through any further sequence of
writes) while shallow-merging the new write's metadata object into the
stored metadata; a write without metadata leaves the entry untouched. -/
theorem c3_errorTool_set_first_verbatim_then_merge
    (t : DefaultErrorTool) (f : String) (v : FieldError) :
    (alookup t.payload f = none →
      alookup ((t.set f v).payload) f = some v
      ∧ ∀ vs : List FieldError,
          ∃ fin, alookup (((t.set f v).setMany f vs).payload) f = some fin
            ∧ fin.reasons = v.reasons)
    ∧ ∀ cur, alookup t.payload f = some cur →
        alookup ((t.set f v).payload) f = some (mergeFieldError cur v)
        ∧ (mergeFieldError cur v).reasons = cur.reasons
        ∧ (v.metadata = none → mergeFieldError cur v = cur)
        ∧ ∀ m, v.metadata = some m → (m.map Prod.fst).Nodup →
            (mergeFieldError cur v).metadata
              = some (shallowMerge (cur.metadata.getD []) m) := by
  constructor
  · intro h
    have hset := set_alookup_of_none t f v h
    exact ⟨hset, fun vs => setMany_reasons f vs (t.set f v) v hset⟩
  · intro cur h
    exact ⟨set_alookup_of_some t f v cur h, mergeFieldError_reasons cur v,
      mergeFieldError_of_none cur v, fun m hm hnd => mergeFieldError_metadata cur v m hm hnd⟩

/-- Witness for C3 at concrete inputs: writing field a twice, the second
write with fresh metadata, keeps the first reasons and unions metadata. -/
theorem c3_errorTool_set_witness :
    alookup ((((DefaultErrorTool.mk0 "Validation Error").set "a"
        ⟨["first reason"], some [("x", JSVal.vnum 1)]⟩).set "a"
        ⟨["second reason"], some [("y", JSVal.vbool true)]⟩).payload) "a"
      = some ⟨["first reason"], some [("x", JSVal.vnum 1), ("y", JSVal.vbool true)]⟩ := by
  have happ := (c3_errorTool_set_first_verbatim_then_merge
    ((DefaultErrorTool.mk0 "Validation Error").set "a"
      ⟨["first reason"], some [("x", JSVal.vnum 1)]⟩) "a"
    ⟨["second reason"], some [("y", JSVal.vbool true)]⟩).2
    ⟨["first reason"], some [("x", JSVal.vnum 1)]⟩ (by decide)
  rw [happ.1]
  decide

theorem filterMap_alookup_keys (obj : List (String × FieldError)) :
    ∀ ks : List String, (∀ k ∈ ks, ∃ v, alookup obj k = some v) →
      ((ks.filterMap fun k => (alookup obj k).map fun v => (k, v)).map Prod.fst) = ks := by
  intro ks
  induction ks with
  | nil => intro _; rfl
  | cons k ks ih =>
    intro h
    obtain ⟨v, hv⟩ := h k (List.mem_cons_self k ks)
    have hrest := ih fun y hy => h y (List.mem_cons_of_mem k hy)
    simp [List.filterMap_cons, hv, hrest]

/- Order lemmas for the JavaScript string comparison. -/

theorem charListLt_asymm :
    ∀ l1 l2 : List Char, charListLt l1 l2 = true → charListLt l2 l1 = false
  | [], [], h => by simp [charListLt] at h
  | [], _ :: _, _ => rfl
  | _ :: _, [], h => by simp [charListLt] at h
  | c :: cs, d :: ds, h => by
    simp only [charListLt] at h ⊢
    by_cases hcd : charLt c d = true
    · have hdc : charLt d c = false := by
        simp only [charLt] at hcd ⊢
        simp only [decide_eq_true_eq] at hcd
        simp [Nat.not_lt.mpr (le_of_lt hcd)]
      rw [hdc, if_neg (by simp), if_pos hcd]
    · rw [if_neg hcd] at h
      by_cases hdc : charLt d c = true
      · rw [if_pos hdc] at h
        exact absurd h (by simp)
      · rw [if_neg hdc] at h
        rw [if_neg hdc, if_neg hcd]
        exact charListLt_asymm cs ds h

theorem charListLt_trans :
    ∀ l1 l2 l3 : List Char, charListLt l1 l2 = true → charListLt l2 l3 = true →
      charListLt l1 l3 = true
  | [], _, _ :: _, _, _ => rfl
  | [], l2, [], _, h2 => by
    cases l2 <;> simp [charListLt] at h2
  | _ :: _, [], _, h1, _ => by simp [charListLt] at h1
  | _ :: _, _ :: _, [], _, h2 => by simp [charListLt] at h2
  | c :: cs, d :: ds, e :: es, h1, h2 => by
    simp only [charListLt, charLt, decide_eq_true_eq] at h1 h2 ⊢
    by_cases hcd : c.toNat < d.toNat
    · by_cases hde : d.toNat < e.toNat
      · simp [Nat.lt_trans hcd hde]
      · rw [if_neg (by simpa using hde)] at h2
        by_cases hed : e.toNat < d.toNat
        · rw [if_pos (by simpa using hed)] at h2
          exact absurd h2 (by simp)
        · have hde2 : d.toNat = e.toNat :=
            Nat.le_antisymm (Nat.not_lt.mp hed) (Nat.not_lt.mp hde)
          have hce : c.toNat < e.toNat := by
            rw [← hde2]; exact hcd
          simp [hce]
    · rw [if_neg (by simpa using hcd)] at h1
      by_cases hdc : d.toNat < c.toNat
      · rw [if_pos (by simpa using hdc)] at h1
        exact absurd h1 (by simp)
      · have hcd2 : c.toNat = d.toNat :=
          Nat.le_antisymm (Nat.not_lt.mp hdc) (Nat.not_lt.mp hcd)
        rw [if_neg (by simpa using hdc)] at h1
        by_cases hde : d.toNat < e.toNat
        · have hce : c.toNat < e.toNat := by
            rw [hcd2]; exact hde
          simp [hce]
        · rw [if_neg (by simpa using hde)] at h2
          by_cases hed : e.toNat < d.toNat
          · rw [if_pos (by simpa using hed)] at h2
            exact absurd h2 (by simp)
          · rw [if_neg (by simpa using hed)] at h2
            have hce : ¬ c.toNat < e.toNat := by
              rw [hcd2]; exact hde
            have hec : ¬ e.toNat < c.toNat := by
              rw [hcd2]; exact hed
            rw [if_neg (by simpa using hce), if_neg (by simpa using hec)]
            exact charListLt_trans cs ds es h1 h2

theorem strLt_asymm (a b : String) (h : strLt a b = true) : strLt b a = false :=
  charListLt_asymm a.data b.data h

theorem strLt_trans (a b c : String) (h1 : strLt a b = true) (h2 : strLt b c = true) :
    strLt a c = true :=
  charListLt_trans a.data b.data c.data h1 h2

theorem strLe_of_strLt (a b : String) (h : strLt a b = true) : strLe a b = true := by
  unfold strLe
  rw [strLt_asymm a b h]
  rfl

theorem charListLt_connex :
    ∀ l1 l2 : List Char, charListLt l1 l2 = false → charListLt l2 l1 = false → l1 = l2
  | [], [], _, _ => rfl
  | [], _ :: _, h1, _ => by simp [charListLt] at h1
  | _ :: _, [], _, h2 => by simp [charListLt] at h2
  | c :: cs, d :: ds, h1, h2 => by
    simp only [charListLt, charLt, decide_eq_true_eq] at h1 h2
    by_cases hcd : c.toNat < d.toNat
    · rw [if_pos (by simpa using hcd)] at h1
      exact absurd h1 (by simp)
    · by_cases hdc : d.toNat < c.toNat
      · rw [if_neg (by simpa using hcd), if_pos (by simpa using hdc)] at h1
        rw [if_pos (by simpa using hdc)] at h2
        exact absurd h2 (by simp)
      · rw [if_neg (by simpa using hcd), if_neg (by simpa using hdc)] at h1
        rw [if_neg (by simpa using hdc), if_neg (by simpa using hcd)] at h2
        have hnat : c.toNat = d.toNat :=
          Nat.le_antisymm (Nat.not_lt.mp hdc) (Nat.not_lt.mp hcd)
        have hchar : c = d := Char.ext (UInt32.ext hnat)
        rw [hchar, charListLt_connex cs ds h1 h2]

theorem strLt_connex (a b : String) (h1 : strLt a b = false) (h2 : strLt b a = false) :
    a = b := by
  have hdata := charListLt_connex a.data b.data h1 h2
  cases a with
  | mk da =>
    cases b with
    | mk db =>
      exact congrArg String.mk hdata

theorem strLe_trans (a b c : String) (h1 : strLe a b = true) (h2 : strLe b c = true) :
    strLe a c = true := by
  unfold strLe at h1 h2 ⊢
  simp only [Bool.not_eq_true'] at h1 h2 ⊢
  by_cases hca : strLt c a = true
  · by_cases hab : strLt a b = true
    · have hcb := strLt_trans c a b hca hab
      rw [hcb] at h2
      exact absurd h2 (by simp)
    · have hab2 : strLt a b = false := by
        simpa using hab
      have heq : a = b := strLt_connex a b hab2 h1
      rw [heq] at hca
      rw [hca] at h2
      exact absurd h2 (by simp)
  · simpa using hca

theorem sortInsert_perm (x : String) (l : List String) :
    (sortInsert x l).Perm (x :: l) := by
  induction l with
  | nil => simp [sortInsert]
  | cons y ys ih =>
    by_cases hxy : strLt x y = true
    · simp [sortInsert, hxy]
    · simp only [sortInsert, if_neg hxy]
      exact (List.Perm.cons y ih).trans (List.Perm.swap x y ys)

theorem sortStrings_perm (l : List String) : (sortStrings l).Perm l := by
  induction l with
  | nil => simp [sortStrings]
  | cons x xs ih =>
    exact (sortInsert_perm x (sortStrings xs)).trans (List.Perm.cons x ih)

theorem sortInsert_sorted (x : String) (l : List String) (h : StrSorted l) :
    StrSorted (sortInsert x l) := by
  induction l with
  | nil => simp [sortInsert, StrSorted]
  | cons y ys ih =>
    unfold StrSorted at h
    rw [List.pairwise_cons] at h
    by_cases hxy : strLt x y = true
    · simp only [sortInsert, if_pos hxy]
      unfold StrSorted
      rw [List.pairwise_cons]
      refine ⟨?_, ?_⟩
      · intro b hb
        rcases List.mem_cons.mp hb with rfl | hb
        · exact strLe_of_strLt x b hxy
        · exact strLe_trans x y b (strLe_of_strLt x y hxy) (h.1 b hb)
      · rw [List.pairwise_cons]
        exact h
    · simp only [sortInsert, if_neg hxy]
      unfold StrSorted
      rw [List.pairwise_cons]
      refine ⟨?_, ih h.2⟩
      intro b hb
      have hmem := (sortInsert_perm x ys).mem_iff.mp hb
      rcases List.mem_cons.mp hmem with rfl | hb2
      · unfold strLe
        simpa using hxy
      · exact h.1 b hb2

theorem sortStrings_sorted (l : List String) : StrSorted (sortStrings l) := by
  induction l with
  | nil => simp [sortStrings, StrSorted]
  | cons x xs ih => exact sortInsert_sorted x (sortStrings xs) ih

theorem sortKeysObj_keys (obj : List (String × FieldError)) :
    (sortKeysObj obj).map Prod.fst = sortStrings (obj.map Prod.fst) := by
  unfold sortKeysObj
  apply filterMap_alookup_keys
  intro k hk
  apply alookup_isSome_of_mem_keys
  exact (sortStrings_perm (obj.map Prod.fst)).subset hk

/-- C4 counterexample: after setting field b then field a, the fields list
surfaces the keys in insertion order, b before a, which is not in sorted
ascending order, so the fields view is not key-sorted as the claim states
(the data getter payload, in contrast, is sorted). -/
theorem c4_fields_insertion_order_counterexample :
    (((DefaultErrorTool.mk0 "Validation Error").set "b" ⟨["r"], none⟩).set "a"
        ⟨["r"], none⟩).fields = ["b", "a"]
    ∧ ¬ StrSorted ["b", "a"]
    ∧ ((((DefaultErrorTool.mk0 "Validation Error").set "b" ⟨["r"], none⟩).set "a"
        ⟨["r"], none⟩).data).2.map Prod.fst = ["a", "b"] := by
  refine ⟨by decide, ?_, by decide⟩
  intro h
  unfold StrSorted at h
  rw [List.pairwise_cons] at h
  have hba := h.1 "a" (List.mem_singleton.mpr rfl)
  revert hba
  decide

/-- C4 amended: the payload surfaced by the data getter is key-sorted
(ascending under the JavaScript string comparison, a permutation of the
stored keys) regardless of the order in which set was called, while the
fields list reflects raw insertion order rather than sorted order. -/
theorem c4_data_sorted_fields_raw (t : DefaultErrorTool) :
    StrSorted ((t.data).2.map Prod.fst)
    ∧ ((t.data).2.map Prod.fst).Perm (t.payload.map Prod.fst)
    ∧ t.fields = t.payload.map Prod.fst := by
  refine ⟨?_, ?_, rfl⟩
  · rw [DefaultErrorTool.data, sortKeysObj_keys]
    exact sortStrings_sorted (t.payload.map Prod.fst)
  · rw [DefaultErrorTool.data, sortKeysObj_keys]
    exact sortStrings_perm (t.payload.map Prod.fst)

/- Embedding of the SchemaCore class (schema definition rules and the
   creation and update eligibility checks). A schema is an association
   list from property name to its definition. -/

inductive ReadonlyRule where
  | off
  | on
  | lax
deriving DecidableEq, Repr

/- Truthiness of the readonly rule: both true and the string lax are
   truthy in the source. -/
def ReadonlyRule.truthy : ReadonlyRule → Bool
  | .off => false
  | .on => true
  | .lax => true

structure ValidatorResponse where
  valid : Bool
  reasons : List String
  validated : Option JSVal
deriving DecidableEq, Repr

/- One property definition. Option models an absent or undefined rule;
   shouldInit is a boolean rule in this class. -/
structure PropDef where
  default : Option JSVal
  readonly : ReadonlyRule
  required : Bool
  dependent : Bool
  sideEffect : Bool
  shouldInit : Option Bool
  validator : Option (Option JSVal → ValidatorResponse)

/- src/utils/functions.ts belongsTo: membership of a value in a list. -/
def belongsTo {α : Type} [DecidableEq α] (value : α) (values : List α) : Bool :=
  values.contains value

/- SchemaCore._isDependentProp: the definition exists, is not sideEffect
   and has dependent true. -/
def _isDependentProp (defs : List (String × PropDef)) (prop : String) : Bool :=
  (alookup defs prop).elim false fun d => !d.sideEffect && d.dependent

/- SchemaCore._hasDefault: the definition exists and its default is not
   undefined. -/
def _hasDefault (defs : List (String × PropDef)) (prop : String) : Bool :=
  (alookup defs prop).elim false fun d => d.default != none

/- SchemaCore._isLaxProp (the valid field of __isLaxProp): a default value
   is present, none of dependent, readonly, required, sideEffect is truthy,
   and shouldInit is true or undefined. -/
def _isLaxProp (defs : List (String × PropDef)) (prop : String) : Bool :=
  (alookup defs prop).elim false fun d =>
    _hasDefault defs prop
      && !(_isDependentProp defs prop || d.readonly.truthy || d.required || d.sideEffect)
      && belongsTo d.shouldInit [some true, none]

/- SchemaCore._canInit: dependent properties are never initialisable; the
   property must be readonly or required, and shouldInit must be true or
   undefined. -/
def _canInit (defs : List (String × PropDef)) (prop : String) : Bool :=
  if _isDependentProp defs prop then false
  else
    (alookup defs prop).elim false fun d =>
      if !d.readonly.truthy && !d.required then false
      else belongsTo d.shouldInit [some true, none]

/- The per-property choice made by SchemaCore._getCreateObject: validate
   the caller-supplied value when the property can be initialised or is a
   lax property the caller supplied, otherwise take the default. -/
inductive CreateSource where
  | fromInput
  | fromDefault
deriving DecidableEq, Repr

def createSource (defs : List (String × PropDef)) (prop : String) (supplied : Bool) :
    CreateSource :=
  if _canInit defs prop || (_isLaxProp defs prop && supplied) then .fromInput
  else .fromDefault

/-- C5: at creation time _canInit is true exactly when the property is
readonly or required and its shouldInit rule is not explicitly false
(dependent properties excluded); dependent properties are never directly
settable by _getCreateObject, and lax properties are taken from the input
exactly when the caller supplied a value. -/
theorem c5_canInit_spec (defs : List (String × PropDef)) (prop : String) (d : PropDef)
    (hd : alookup defs prop = some d) :
    (_canInit defs prop = true
      ↔ (_isDependentProp defs prop = false
          ∧ (d.readonly.truthy = true ∨ d.required = true)
          ∧ d.shouldInit ≠ some false))
    ∧ (_isDependentProp defs prop = true →
        ∀ s, createSource defs prop s = .fromDefault)
    ∧ (_isLaxProp defs prop = true →
        ∀ s, (createSource defs prop s = .fromInput ↔ s = true)) := by
  have hsi : belongsTo d.shouldInit [some true, none] = true ↔ d.shouldInit ≠ some false := by
    cases hs : d.shouldInit with
    | none => simp [belongsTo]
    | some b => cases b <;> simp [belongsTo]
  refine ⟨?_, ?_, ?_⟩
  · unfold _canInit
    rw [hd]
    by_cases hdep : _isDependentProp defs prop = true
    · simp [hdep]
    · have hdep2 : _isDependentProp defs prop = false := by simpa using hdep
      rw [if_neg (by simp [hdep2])]
      simp only [Option.elim_some]
      by_cases hro : d.readonly.truthy = true
      · simp [hro, hsi, hdep2]
      · have hro2 : d.readonly.truthy = false := by simpa using hro
        by_cases hreq : d.required = true
        · simp [hreq, hro2, hsi, hdep2]
        · have hreq2 : d.required = false := by simpa using hreq
          simp [hro2, hreq2]
  · intro hdep s
    have hci : _canInit defs prop = false := by
      unfold _canInit
      simp [hdep]
    have hlax : _isLaxProp defs prop = false := by
      unfold _isLaxProp
      rw [hd]
      simp [hdep]
    simp [createSource, hci, hlax]
  · intro hlax s
    have hlax2 := hlax
    unfold _isLaxProp at hlax2
    rw [hd] at hlax2
    simp only [Option.elim_some, Bool.and_eq_true, Bool.not_eq_true',
      Bool.or_eq_false_iff] at hlax2
    obtain ⟨⟨hdef, ⟨⟨⟨hdep, hro⟩, hreq⟩, hse⟩⟩, hsi2⟩ := hlax2
    have hci : _canInit defs prop = false := by
      unfold _canInit
      rw [if_neg (by simp [hdep])]
      rw [hd]
      simp only [Option.elim_some]
      rw [if_pos (by simp [hro, hreq])]
    cases s
    · simp [createSource, hci, hlax]
    · simp [createSource, hci, hlax]

/-- Witness for C5: a lax property (default present, nothing else truthy)
is created from the input exactly when supplied; here supplied, so the
value comes from the input. -/
theorem c5_canInit_witness :
    createSource
      [("laxProp",
        { default := some (JSVal.vstr ""), readonly := .off, required := false,
          dependent := false, sideEffect := false, shouldInit := none,
          validator := none })] "laxProp" true = .fromInput := by
  have happ := (c5_canInit_spec
    [("laxProp",
      { default := some (JSVal.vstr ""), readonly := .off, required := false,
        dependent := false, sideEffect := false, shouldInit := none,
        validator := none })] "laxProp"
    { default := some (JSVal.vstr ""), readonly := .off, required := false,
      dependent := false, sideEffect := false, shouldInit := none,
      validator := none } (by simp [alookup])).2.2
  exact (happ (by rfl) true).mpr rfl

/- SchemaCore._isProp: membership in the compiled property list. -/
def _isProp (props : List String) (prop : String) : Bool :=
  props.contains prop

/- SchemaCore._hasChanged: the current context value differs by deep
   equality from the definition default. -/
def _hasChanged (defs : List (String × PropDef)) (prop : String)
    (ctxVal : Option JSVal) : Bool :=
  (alookup defs prop).elim false fun d => d.default != ctxVal

/- SchemaCore._isUpdatable: known, not dependent, and when readonly only
   while the value has never changed from the default. -/
def _isUpdatable (defs : List (String × PropDef)) (props : List String)
    (prop : String) (ctxVal : Option JSVal) : Bool :=
  if !(_isProp props prop) then false
  else if _isDependentProp defs prop then false
  else
    let readonly := (alookup defs prop).elim ReadonlyRule.off fun d => d.readonly
    !readonly.truthy || (readonly.truthy && !(_hasChanged defs prop ctxVal))

/- SchemaCore._isUpdatableInCTX: known and the provided value differs by
   deep equality from the context value. -/
def _isUpdatableInCTX (props : List String) (prop : String)
    (value ctxVal : Option JSVal) : Bool :=
  if !(_isProp props prop) then false
  else value != ctxVal

/- The result envelope of the model operations. -/
structure ErrInfo where
  message : String
  payload : List (String × FieldError)
deriving DecidableEq, Repr

structure Envelope where
  data : Option (List (String × JSVal))
  error : Option ErrInfo
deriving DecidableEq, Repr

/-- Modelled from the spec: the ModelFacade result shaping (the facade
itself is not under src, only its tests are): a failed operation yields
data null and the error info, a successful one yields the entity and error
null. -/
def makeEnvelope (outcome : Except ErrInfo (List (String × JSVal))) : Envelope :=
  match outcome with
  | .ok entity => { data := some entity, error := none }
  | .error e => { data := none, error := some e }

/-- Modelled from the spec: the update driver (the concrete update routine
is not under src, only SchemaCore._isUpdatable and _isUpdatableInCTX are):
a change entry is eligible when both checks pass against the current
entity. -/
def eligibleUpdates (defs : List (String × PropDef)) (props : List String)
    (current changes : List (String × JSVal)) : List (String × JSVal) :=
  changes.filter fun p =>
    _isUpdatable defs props p.1 (alookup current p.1)
      && _isUpdatableInCTX props p.1 (some p.2) (alookup current p.1)

/-- Modelled from the spec: when zero properties are eligible the update
fails with message Nothing to update and an empty payload, otherwise the
eligible changes are applied. -/
def runUpdate (defs : List (String × PropDef)) (props : List String)
    (current changes : List (String × JSVal)) : Envelope :=
  let elig := eligibleUpdates defs props current changes
  if elig.isEmpty then
    makeEnvelope (.error { message := "Nothing to update", payload := [] })
  else makeEnvelope (.ok elig)

/-- C6: a property is eligible for update exactly when it is a known
non-dependent property whose provided value differs by deep equality from
its current value and, when readonly, whose current value still equals its
default; and when zero properties are eligible the update fails with the
error message Nothing to update and an empty payload. -/
theorem c6_update_eligibility_spec (defs : List (String × PropDef)) (props : List String)
    (current changes : List (String × JSVal)) (prop : String) (d : PropDef) (v : JSVal)
    (hd : alookup defs prop = some d) :
    ((_isUpdatable defs props prop (alookup current prop)
        && _isUpdatableInCTX props prop (some v) (alookup current prop)) = true
      ↔ (_isProp props prop = true
          ∧ _isDependentProp defs prop = false
          ∧ some v ≠ alookup current prop
          ∧ (d.readonly.truthy = true → d.default = alookup current prop)))
    ∧ (eligibleUpdates defs props current changes = [] →
        runUpdate defs props current changes
          = { data := none, error := some { message := "Nothing to update", payload := [] } }) := by
  constructor
  · by_cases hp : _isProp props prop = true
    · by_cases hdep : _isDependentProp defs prop = true
      · simp [_isUpdatable, _isUpdatableInCTX, hp, hdep]
      · have hdep2 : _isDependentProp defs prop = false := by simpa using hdep
        by_cases hro : d.readonly.truthy = true
        · by_cases hch : d.default = alookup current prop
          · simp [_isUpdatable, _isUpdatableInCTX, _hasChanged, hd, hp, hdep2, hro, hch]
          · simp [_isUpdatable, _isUpdatableInCTX, _hasChanged, hd, hp, hdep2, hro, hch]
        · have hro2 : d.readonly.truthy = false := by simpa using hro
          simp [_isUpdatable, _isUpdatableInCTX, _hasChanged, hd, hp, hdep2, hro2]
    · have hp2 : _isProp props prop = false := by simpa using hp
      simp [_isUpdatable, _isUpdatableInCTX, hp2]
  · intro helig
    unfold runUpdate
    rw [helig]
    rfl

/-- Witness for C6, the lax-readonly round trip: a property with readonly
lax and default empty string that was set once (current value differs from
the default) is not eligible again, so the update fails with Nothing to
update. -/
theorem c6_update_witness :
    runUpdate
      [("p", ⟨some (JSVal.vstr ""), ReadonlyRule.lax, false, false, false, none, none⟩)]
      ["p"] [("p", JSVal.vstr "set once")] [("p", JSVal.vstr "again")]
      = { data := none, error := some { message := "Nothing to update", payload := [] } } :=
  (c6_update_eligibility_spec
    [("p", ⟨some (JSVal.vstr ""), ReadonlyRule.lax, false, false, false, none, none⟩)]
    ["p"] [("p", JSVal.vstr "set once")] [("p", JSVal.vstr "again")] "p"
    ⟨some (JSVal.vstr ""), ReadonlyRule.lax, false, false, false, none, none⟩
    (JSVal.vstr "again") rfl).2 rfl

/- SchemaCore._getValidator. -/
def _getValidator (defs : List (String × PropDef)) (prop : String) :
    Option (Option JSVal → ValidatorResponse) :=
  (alookup defs prop).bind fun d => d.validator

/- SchemaCore.validate: unknown keys (neither property nor side effect)
   are rejected as Invalid property before any validator is consulted; a
   known property without validator rejects the literal string undefined
   and passes any other value through unchanged; otherwise the
   user-supplied validator runs. -/
def validate (defs : List (String × PropDef)) (props sideEffects : List String)
    (prop : String) (value : Option JSVal) : ValidatorResponse :=
  if !(props.contains prop) && !(sideEffects.contains prop) then
    ⟨false, ["Invalid property"], none⟩
  else if (_getValidator defs prop).isNone && value = some (JSVal.vstr "undefined") then
    ⟨false, ["Invalid value"], none⟩
  else
    (_getValidator defs prop).elim ⟨true, [], value⟩ fun f => f value

/-- C10: for a key that is neither a schema property nor a side effect,
validate resolves to invalid with the single reason Invalid property (for
every schema, so no user-supplied validator can influence the result); for
a known property without a validator and a value other than the literal
string undefined, validate passes the value through as valid. -/
theorem c10_validate_unknown_and_passthrough (defs : List (String × PropDef))
    (props sideEffects : List String) (prop : String) (value : Option JSVal) :
    (props.contains prop = false → sideEffects.contains prop = false →
      validate defs props sideEffects prop value
        = ⟨false, ["Invalid property"], none⟩)
    ∧ (props.contains prop = true → _getValidator defs prop = none →
        value ≠ some (JSVal.vstr "undefined") →
        validate defs props sideEffects prop value = ⟨true, [], value⟩) := by
  constructor
  · intro h1 h2
    unfold validate
    rw [if_pos (by rw [h1, h2]; rfl)]
  · intro h1 hval hv
    unfold validate
    rw [if_neg (by rw [h1]; simp), if_neg (by simp [hv]), hval]
    rfl

/-- Witness for C10: in a one-property schema, validating the unknown key
other yields Invalid property, and validating the known validator-less
property a with the number 5 passes it through as valid. -/
theorem c10_validate_witness :
    validate
      [("a", ⟨some (JSVal.vnum 0), ReadonlyRule.off, false, false, false, none, none⟩)]
      ["a"] [] "other" (some (JSVal.vnum 5))
      = ⟨false, ["Invalid property"], none⟩
    ∧ validate
      [("a", ⟨some (JSVal.vnum 0), ReadonlyRule.off, false, false, false, none, none⟩)]
      ["a"] [] "a" (some (JSVal.vnum 5))
      = ⟨true, [], some (JSVal.vnum 5)⟩ :=
  ⟨(c10_validate_unknown_and_passthrough
      [("a", ⟨some (JSVal.vnum 0), ReadonlyRule.off, false, false, false, none, none⟩)]
      ["a"] [] "other" (some (JSVal.vnum 5))).1 (by decide) rfl,
    (c10_validate_unknown_and_passthrough
      [("a", ⟨some (JSVal.vnum 0), ReadonlyRule.off, false, false, false, none, none⟩)]
      ["a"] [] "a" (some (JSVal.vnum 5))).2 (by decide) rfl (by decide)⟩

/- Virtual and alias resolution, modelled from the spec for the quantity
   schema used by the alias-precedence tests: id is the constant 1,
   quantity is dependent with default 0 and resolves from setQuantity,
   setQuantity is a virtual with alias qty and a number validator. -/

def isNumber : JSVal → Bool
  | JSVal.vnum _ => true
  | _ => false

/-- Modelled from the spec: when both the virtual name and its alias occur
in the raw input, the keys are read in object iteration order and the one
read last overwrites the context value used for downstream resolution
(the resolution engine is not under src, only its tests are). -/
def lastVirtualEntry (virtualName aliasKey : String)
    (input : List (String × JSVal)) : Option (String × JSVal) :=
  (input.filter fun p => p.1 = virtualName || p.1 = aliasKey).getLast?

/-- Modelled from the spec: create for the quantity schema; without the
virtual the dependent keeps its default, with it the number validator runs
and the dependent resolves from the context value. -/
def createQuantityModel (input : List (String × JSVal)) : Envelope :=
  (lastVirtualEntry "setQuantity" "qty" input).elim
    (makeEnvelope (.ok [("id", JSVal.vnum 1), ("quantity", JSVal.vnum 0)]))
    fun kv =>
      if isNumber kv.2 then
        makeEnvelope (.ok [("id", JSVal.vnum 1), ("quantity", kv.2)])
      else
        makeEnvelope (.error
          { message := "Validation Error",
            payload := [(kv.1, ⟨["Invalid quantity"], none⟩)] })

/-- Modelled from the spec: update for the quantity schema; no virtual in
the changes (or a resolved value equal to the current one) means nothing
is eligible, otherwise the dependent is recomputed from the context
value. -/
def updateQuantityModel (current changes : List (String × JSVal)) : Envelope :=
  (lastVirtualEntry "setQuantity" "qty" changes).elim
    (makeEnvelope (.error { message := "Nothing to update", payload := [] }))
    fun kv =>
      if isNumber kv.2 then
        if some kv.2 = alookup current "quantity" then
          makeEnvelope (.error { message := "Nothing to update", payload := [] })
        else makeEnvelope (.ok [("quantity", kv.2)])
      else
        makeEnvelope (.error
          { message := "Validation Error",
            payload := [(kv.1, ⟨["Invalid quantity"], none⟩)] })

theorem getLast?_append_singleton {α : Type} (l : List α) (a : α) :
    (l ++ [a]).getLast? = some a := by
  induction l with
  | nil => rfl
  | cons x xs ih =>
    rw [List.cons_append, List.getLast?_cons, ih]
    cases xs <;> simp

theorem lastVirtualEntry_append (virtualName aliasKey : String)
    (l1 l2 : List (String × JSVal)) (k : String) (v : JSVal)
    (hk : k = virtualName ∨ k = aliasKey)
    (hl2 : ∀ p ∈ l2, p.1 ≠ virtualName ∧ p.1 ≠ aliasKey) :
    lastVirtualEntry virtualName aliasKey (l1 ++ (k, v) :: l2) = some (k, v) := by
  unfold lastVirtualEntry
  rw [List.filter_append]
  have hcons : ((k, v) :: l2).filter (fun p => p.1 = virtualName || p.1 = aliasKey)
      = [(k, v)] := by
    rw [List.filter_cons]
    have hkk : ((k, v).1 = virtualName || (k, v).1 = aliasKey) = true := by
      rcases hk with rfl | rfl <;> simp
    rw [if_pos (by simpa using hkk)]
    have hnil : l2.filter (fun p => p.1 = virtualName || p.1 = aliasKey) = [] := by
      apply List.filter_eq_nil_iff.mpr
      intro p hp
      have := hl2 p hp
      simp [this.1, this.2]
    rw [hnil]
  rw [hcons]
  exact getLast?_append_singleton _ _

/-- C2: when an input object contains both the virtual setQuantity and its
alias qty, the key appearing later in iteration order determines the value
the dependent quantity resolves from; any input whose last virtual-or-alias
entry carries the number n creates quantity n. -/
theorem c2_alias_precedence_last_key_wins (l1 l2 : List (String × JSVal))
    (k : String) (n : Int)
    (hk : k = "setQuantity" ∨ k = "qty")
    (hl2 : ∀ p ∈ l2, p.1 ≠ "setQuantity" ∧ p.1 ≠ "qty") :
    createQuantityModel (l1 ++ (k, JSVal.vnum n) :: l2)
      = { data := some [("id", JSVal.vnum 1), ("quantity", JSVal.vnum n)],
          error := none } := by
  unfold createQuantityModel
  rw [lastVirtualEntry_append "setQuantity" "qty" l1 l2 k (JSVal.vnum n) hk hl2]
  simp [isNumber, makeEnvelope]

/-- Witness for C2, the two concrete orders from the tests:
create qty 12 then setQuantity 50 yields quantity 50, and
create setQuantity 20 then qty 1 yields quantity 1. -/
theorem c2_alias_precedence_witness :
    createQuantityModel [("qty", JSVal.vnum 12), ("setQuantity", JSVal.vnum 50)]
      = { data := some [("id", JSVal.vnum 1), ("quantity", JSVal.vnum 50)],
          error := none }
    ∧ createQuantityModel [("setQuantity", JSVal.vnum 20), ("qty", JSVal.vnum 1)]
      = { data := some [("id", JSVal.vnum 1), ("quantity", JSVal.vnum 1)],
          error := none } :=
  ⟨c2_alias_precedence_last_key_wins [("qty", JSVal.vnum 12)] [] "setQuantity" 50
      (Or.inl rfl) (by intro p hp; simp at hp),
    c2_alias_precedence_last_key_wins [("setQuantity", JSVal.vnum 20)] [] "qty" 1
      (Or.inr rfl) (by intro p hp; simp at hp)⟩

/- C1: the result envelope invariant. -/

/-- Exactly one of the envelope data and error is non-null; a failure
carries data null with an error of message and payload, a success carries
the entity with error null. -/
def ExclusiveEnvelope (e : Envelope) : Prop :=
  (e.data.isSome = true ∧ e.error = none)
    ∨ (e.data = none ∧ e.error.isSome = true)

theorem makeEnvelope_exclusive (o : Except ErrInfo (List (String × JSVal))) :
    ExclusiveEnvelope (makeEnvelope o) := by
  cases o with
  | ok entity => exact Or.inl (by simp [makeEnvelope])
  | error e => exact Or.inr (by simp [makeEnvelope])

/-- C1: every create and every update call returns an envelope with
exactly one of data and error non-null: failures are data null plus an
error carrying message and payload, successes are the entity plus error
null. Holds for the modelled create, the modelled alias update and the
eligibility-driven update driver. -/
theorem c1_envelope_exactly_one (input cur ch : List (String × JSVal))
    (defs : List (String × PropDef)) (props : List String)
    (current changes : List (String × JSVal)) :
    ExclusiveEnvelope (createQuantityModel input)
    ∧ ExclusiveEnvelope (updateQuantityModel cur ch)
    ∧ ExclusiveEnvelope (runUpdate defs props current changes) := by
  refine ⟨?_, ?_, ?_⟩
  · unfold createQuantityModel
    cases lastVirtualEntry "setQuantity" "qty" input with
    | none =>
      simp only [Option.elim_none]
      exact makeEnvelope_exclusive _
    | some kv =>
      simp only [Option.elim_some]
      by_cases h : isNumber kv.2 = true
      · rw [if_pos h]
        exact makeEnvelope_exclusive _
      · rw [if_neg h]
        exact makeEnvelope_exclusive _
  · unfold updateQuantityModel
    cases lastVirtualEntry "setQuantity" "qty" ch with
    | none =>
      simp only [Option.elim_none]
      exact makeEnvelope_exclusive _
    | some kv =>
      simp only [Option.elim_some]
      by_cases h : isNumber kv.2 = true
      · rw [if_pos h]
        by_cases h2 : some kv.2 = alookup cur "quantity"
        · rw [if_pos h2]
          exact makeEnvelope_exclusive _
        · rw [if_neg h2]
          exact makeEnvelope_exclusive _
      · rw [if_neg h]
        exact makeEnvelope_exclusive _
  · unfold runUpdate
    by_cases h : (eligibleUpdates defs props current changes).isEmpty = true
    · rw [if_pos h]
      exact makeEnvelope_exclusive _
    · rw [if_neg h]
      exact makeEnvelope_exclusive _

/- C8: sanitizer errors are swallowed. -/

/-- Modelled from the spec: applying a virtual property sanitizer to the
validated value; an exception inside the sanitizer is caught and the
validated value is used as the fallback (the lifecycle engine is not
under src, only its tests are). -/
def applySanitizer (san : Option (JSVal → Except String JSVal))
    (validated : JSVal) : JSVal :=
  match san with
  | none => validated
  | some f =>
    match f validated with
    | .ok v => v
    | .error _ => validated

/- The sanitizer of the test schema, which always throws. -/
def throwingSanitizer : JSVal → Except String JSVal :=
  fun _ => .error "lolol"

/-- Modelled from the spec: the operation on the sanitizer test schema
(virtual with an always-valid validator and a sanitizer, one dependent
resolving to the virtual context value): validate, sanitize with errors
swallowed, resolve the dependent, succeed. -/
def runVirtualWithSanitizer (san : Option (JSVal → Except String JSVal))
    (virtualInput : JSVal) : Envelope :=
  let validated := virtualInput
  let ctxValue := applySanitizer san validated
  makeEnvelope (.ok [("dependent", ctxValue)])

/-- C8: with a sanitizer that throws, the error is swallowed and the
operation proceeds on the validated value: the call succeeds with error
null and the dependent resolves from the validated (pre-sanitizer)
value. -/
theorem c8_sanitizer_error_swallowed (v : JSVal) :
    applySanitizer (some throwingSanitizer) v = v
    ∧ runVirtualWithSanitizer (some throwingSanitizer) v
        = { data := some [("dependent", v)], error := none } := by
  constructor
  · rfl
  · rfl

/- C7: post-validate validator arrays. -/

/- The value stored under one field of an object returned by a
   post-validator. -/
inductive FieldSpecVal where
  | fstr (s : String)
  | farr (l : List String)
  | ffalse
  | fnull
  | fdetail (reason : String) (metadata : Option (List (String × JSVal)))
deriving DecidableEq, Repr

/-- Modelled from the spec: normalisation of one field entry of a returned
error object: strings and arrays become reasons lists, false and null are
normalised to validation failed, a reason object keeps its metadata. -/
def normalizeFieldSpec : FieldSpecVal → FieldError
  | .fstr s => ⟨[s], none⟩
  | .farr l => ⟨l, none⟩
  | .ffalse => ⟨["validation failed"], none⟩
  | .fnull => ⟨["validation failed"], none⟩
  | .fdetail r m => ⟨[r], m⟩

/- The observable outcome of one post-validator entry. -/
inductive PVResult where
  | rnum (n : Int)
  | rstr (s : String)
  | rundef
  | rnull
  | rbool (b : Bool)
  | rfunc
  | rarr
  | robj (fields : List (String × FieldSpecVal))
  | rthrow
deriving Repr

/-- Modelled from the spec: only a returned plain object (a field-to-reason
map) or a thrown exception carries an error; numbers, strings, undefined,
null, booleans, functions and arrays do not. -/
def errorBearing : PVResult → Bool
  | .robj _ => true
  | .rthrow => true
  | _ => false

/-- Modelled from the spec: the errors produced by one error-bearing
entry; a returned object maps each field through normalisation, a thrown
exception charges every provided property of the config with validation
failed. -/
def errorsOf (provided : List String) : PVResult → List (String × FieldError)
  | .robj fields => fields.map fun p => (p.1, normalizeFieldSpec p.2)
  | .rthrow => provided.map fun p => (p, ⟨["validation failed"], none⟩)
  | _ => []

/-- Modelled from the spec: one config's validator array runs strictly
sequentially and stops at the first error-bearing entry; the second
component counts how many entries ran. -/
def runValidatorArray (provided : List String) :
    List PVResult → List (String × FieldError) × Nat
  | [] => ([], 0)
  | r :: rest =>
    if errorBearing r then (errorsOf provided r, 1)
    else
      let rec2 := runValidatorArray provided rest
      (rec2.1, rec2.2 + 1)

/-- C7: validator array entries run sequentially and stop at the first
error-bearing entry (exactly the entries before it, plus itself, run and
the later entries do not); an all-ignorable array (numbers, strings,
undefined, functions, arrays and other non-object-like values) runs to the
end producing no error; object returns are normalised field maps with
false and null becoming validation failed, and a throw charges every
provided property with validation failed. -/
theorem c7_postValidate_sequential_stop (provided : List String)
    (pre post : List PVResult) (r : PVResult)
    (hpre : ∀ x ∈ pre, errorBearing x = false) (hr : errorBearing r = true) :
    runValidatorArray provided (pre ++ r :: post)
        = (errorsOf provided r, pre.length + 1)
    ∧ (∀ rs : List PVResult, (∀ x ∈ rs, errorBearing x = false) →
        runValidatorArray provided rs = ([], rs.length))
    ∧ (∀ n, errorBearing (.rnum n) = false)
    ∧ (∀ s, errorBearing (.rstr s) = false)
    ∧ errorBearing .rundef = false ∧ errorBearing .rfunc = false
    ∧ errorBearing .rarr = false
    ∧ normalizeFieldSpec .ffalse = ⟨["validation failed"], none⟩
    ∧ normalizeFieldSpec .fnull = ⟨["validation failed"], none⟩
    ∧ errorsOf provided .rthrow
        = provided.map fun p => (p, ⟨["validation failed"], none⟩) := by
  refine ⟨?_, ?_, fun _ => rfl, fun _ => rfl, rfl, rfl, rfl, rfl, rfl, rfl⟩
  · induction pre with
    | nil =>
      rw [List.nil_append]
      unfold runValidatorArray
      rw [if_pos hr]
      rfl
    | cons x xs ih =>
      have hx := hpre x (List.mem_cons_self x xs)
      have hrest := ih fun y hy => hpre y (List.mem_cons_of_mem x hy)
      rw [List.cons_append]
      unfold runValidatorArray
      rw [if_neg (by simp [hx])]
      simp [hrest]
  · intro rs hrs
    induction rs with
    | nil => rfl
    | cons x xs ih =>
      have hx := hrs x (List.mem_cons_self x xs)
      have hrest := ih fun y hy => hrs y (List.mem_cons_of_mem x hy)
      unfold runValidatorArray
      rw [if_neg (by simp [hx])]
      simp [hrest]

/-- Witness for C7: a first ignorable entry, then an object entry carrying
a string reason and a null (normalised) field stops the run at two entries
with the post entry never running. -/
theorem c7_postValidate_witness :
    runValidatorArray ["p1", "v"]
      [PVResult.rnum 1,
        PVResult.robj [("p1", FieldSpecVal.fstr "p1"), ("p4", FieldSpecVal.fnull)],
        PVResult.rstr "never runs"]
      = ([("p1", ⟨["p1"], none⟩), ("p4", ⟨["validation failed"], none⟩)], 2) :=
  (c7_postValidate_sequential_stop ["p1", "v"] [PVResult.rnum 1]
    [PVResult.rstr "never runs"]
    (PVResult.robj [("p1", FieldSpecVal.fstr "p1"), ("p4", FieldSpecVal.fnull)])
    (by intro x hx; simp at hx; rw [hx]; rfl) rfl).1

/- C9: duplicate and subset detection across post-validate configs,
   modelled from the spec (the schema-core checker is not under src, only
   its tests are). A config is identified with its properties list; a
   violation names the pair of offending config indices. -/

/- Equality of two property sets regardless of order. -/
def sameSet (a b : List String) : Bool :=
  (a.all fun x => b.contains x) && (b.all fun x => a.contains x)

/- Strict subset of property sets. -/
def strictSubset (a b : List String) : Bool :=
  (a.all fun x => b.contains x) && !(b.all fun x => a.contains x)

/- All index pairs i < j below n. -/
def indexPairsLt (n : Nat) : List (Nat × Nat) :=
  (List.range n).flatMap fun j => (List.range j).map fun i => (i, j)

/- All ordered index pairs i, j below n with i different from j. -/
def indexPairsNe (n : Nat) : List (Nat × Nat) :=
  (List.range n).flatMap fun i =>
    ((List.range n).filter fun j => j ≠ i).map fun j => (i, j)

/-- Modelled from the spec: two configs sharing an identical property set
regardless of order are a violation reported at both offending indices
(the violation carries the pair of indices). -/
def duplicatePairs (cfgs : List (List String)) : List (Nat × Nat) :=
  (indexPairsLt cfgs.length).filter fun p =>
    sameSet (cfgs.getD p.1 []) (cfgs.getD p.2 [])

/-- Modelled from the spec: a config whose property set is a strict subset
of another's is a violation reported against the superset index (the
second index of the pair). -/
def subsetPairs (cfgs : List (List String)) : List (Nat × Nat) :=
  (indexPairsNe cfgs.length).filter fun p =>
    strictSubset (cfgs.getD p.1 []) (cfgs.getD p.2 [])

/-- Modelled from the spec: schema construction accepts the post-validate
configs only when there is no duplicate-set pair and no subset pair. -/
def postValidateConfigsOk (cfgs : List (List String)) : Bool :=
  (duplicatePairs cfgs).isEmpty && (subsetPairs cfgs).isEmpty

theorem mem_indexPairsLt (n i j : Nat) :
    (i, j) ∈ indexPairsLt n ↔ i < j ∧ j < n := by
  unfold indexPairsLt
  simp only [List.mem_flatMap, List.mem_map, List.mem_range, Prod.mk.injEq]
  constructor
  · rintro ⟨j2, hj2, i2, hi2, rfl, rfl⟩
    exact ⟨hi2, hj2⟩
  · rintro ⟨hij, hjn⟩
    exact ⟨j, hjn, i, hij, rfl, rfl⟩

theorem mem_indexPairsNe (n i j : Nat) :
    (i, j) ∈ indexPairsNe n ↔ i < n ∧ j < n ∧ j ≠ i := by
  unfold indexPairsNe
  simp only [List.mem_flatMap, List.mem_map, List.mem_filter, List.mem_range,
    Prod.mk.injEq, decide_eq_true_eq]
  constructor
  · rintro ⟨i2, hi2, j2, ⟨hj2, hne⟩, rfl, rfl⟩
    exact ⟨hi2, hj2, hne⟩
  · rintro ⟨hin, hjn, hne⟩
    exact ⟨i, hin, j, ⟨hjn, hne⟩, rfl, rfl⟩

/-- C9: an identical property set regardless of order between the configs
at positions i and j is a violation recorded with both offending indices
and fails construction; a strict subset relation is a violation recorded
against the superset index and fails construction; concretely,
registering A with properties p1, p2 together with B with properties
p1, p2, v1 fails with the single subset violation citing B (index 1) as
the superset of A (index 0). -/
theorem c9_postValidate_config_overlap (cfgs : List (List String)) (i j : Nat) :
    (i < j → j < cfgs.length →
      sameSet (cfgs.getD i []) (cfgs.getD j []) = true →
      (i, j) ∈ duplicatePairs cfgs ∧ postValidateConfigsOk cfgs = false)
    ∧ (i < cfgs.length → j < cfgs.length → j ≠ i →
        strictSubset (cfgs.getD i []) (cfgs.getD j []) = true →
        (i, j) ∈ subsetPairs cfgs ∧ postValidateConfigsOk cfgs = false)
    ∧ (subsetPairs [["p1", "p2"], ["p1", "p2", "v1"]] = [(0, 1)]
        ∧ postValidateConfigsOk [["p1", "p2"], ["p1", "p2", "v1"]] = false) := by
  refine ⟨?_, ?_, by decide, by decide⟩
  · intro hij hjn hsame
    have hmem : (i, j) ∈ duplicatePairs cfgs := by
      unfold duplicatePairs
      rw [List.mem_filter]
      exact ⟨(mem_indexPairsLt cfgs.length i j).mpr ⟨hij, hjn⟩, by simpa using hsame⟩
    refine ⟨hmem, ?_⟩
    unfold postValidateConfigsOk
    have hne : duplicatePairs cfgs ≠ [] := List.ne_nil_of_mem hmem
    have hemp : (duplicatePairs cfgs).isEmpty = false := by
      cases hc : duplicatePairs cfgs with
      | nil => exact absurd hc hne
      | cons a as => rfl
    rw [hemp]
    rfl
  · intro hin hjn hne hsub
    have hmem : (i, j) ∈ subsetPairs cfgs := by
      unfold subsetPairs
      rw [List.mem_filter]
      exact ⟨(mem_indexPairsNe cfgs.length i j).mpr ⟨hin, hjn, hne⟩, by simpa using hsub⟩
    refine ⟨hmem, ?_⟩
    unfold postValidateConfigsOk
    have hne2 : subsetPairs cfgs ≠ [] := List.ne_nil_of_mem hmem
    have hemp : (subsetPairs cfgs).isEmpty = false := by
      cases hc : subsetPairs cfgs with
      | nil => exact absurd hc hne2
      | cons a as => rfl
    rw [hemp]
    simp

/-- Witness for C9: in the two-config family [A, B] with A of properties
p1, p2 and B of properties p1, p2, v1, the pair (0, 1) is a recorded
subset violation (citing index 1, the superset B) and construction is
rejected. -/
theorem c9_postValidate_witness :
    (0, 1) ∈ subsetPairs [["p1", "p2"], ["p1", "p2", "v1"]]
    ∧ postValidateConfigsOk [["p1", "p2"], ["p1", "p2", "v1"]] = false :=
  (c9_postValidate_config_overlap [["p1", "p2"], ["p1", "p2", "v1"]] 0 1).2.1
    (by decide) (by decide) (by decide) (by decide)
